import Mathlib

/-!
Verification development for the stock-logger trade-tracking core:
the weighted-average-price position calculator (py_tradeobject/logic.py),
the TradeObject lifecycle state machine (py_tradeobject/core.py), and the
history replay engine (py_portfolio_state/history.py).

Modelling conventions:
* Python floats are embedded as exact rationals (ℚ); Python `round(x, n)`
  (banker's rounding at n decimal digits) is modelled by `pyRound`.
* `datetime` timestamps are embedded as integer seconds (`Time := ℤ`);
  `timedelta.days` is floor division by 86400.  The timezone-normalisation
  branches of the source collapse under this model (all instants are naive).
* Python dicts (insertion-ordered, unique keys) are embedded as association
  lists with `dictMem` / `dictSet` / `dictGet?` mirroring `in`, `d[k]=v`,
  `d[k]` and `dictDel` mirroring `del d[k]`.
* Broker side effects are embedded as an explicit trace of `BrokerCall`
  values; broker-chosen order ids are passed in as arguments.
-/

namespace Stocklog

/-- Timestamps: integer seconds on a single timeline. -/
abbrev Time := Int

/-- Floor of a rational as an integer (`num.fdiv den`). -/
def ratFloor (x : ℚ) : ℤ := Int.fdiv x.num x.den

/-- Python's banker's rounding (round-half-to-even) of a rational to an integer. -/
def bankersRound (x : ℚ) : ℤ :=
  let f := ratFloor x
  let r := x - (f : ℚ)
  if r < 1/2 then f
  else if 1/2 < r then f + 1
  else if f % 2 = 0 then f else f + 1

/-- Python's `round(x, n)`: banker's rounding at `n` decimal digits. -/
def pyRound (x : ℚ) (n : ℕ) : ℚ := (bankersRound (x * 10 ^ n) : ℚ) / 10 ^ n

/-- `TradeTransaction` from py_tradeobject/models.py.  The `type` and
`slippage` fields are never read by any of the modelled operations and are
omitted. -/
structure TradeTransaction where
  id : String
  timestamp : Time
  quantity : ℚ
  price : ℚ
  commission : ℚ
  order_id : Option String
deriving DecidableEq, Repr

/-- `TradeOrderLog` from py_tradeobject/models.py (the `details` dict is
never read by the modelled operations and is omitted). -/
structure TradeOrderLog where
  timestamp : Time
  order_id : String
  action : String
  status : String
  message : String
  quantity : ℚ
  type : String
  limit_price : Option ℚ
  stop_price : Option ℚ
  trigger_price : Option ℚ
  note : String
deriving DecidableEq, Repr

/-- `TradeMetrics` from py_tradeobject/models.py. -/
structure TradeMetrics where
  net_quantity : ℚ
  avg_price : ℚ
  unrealized_pnl : ℚ
  realized_pnl : ℚ
  total_commissions : ℚ
  initial_risk : ℚ
  r_multiple : ℚ
  days_held : ℤ
deriving DecidableEq, Repr

/-- Running state of the single forward pass of
`TradeCalculator.calculate_metrics` (logic.py lines 27-32). -/
structure PosState where
  net_qty : ℚ
  avg_price : ℚ
  realized_pnl : ℚ
  total_commissions : ℚ
deriving DecidableEq, Repr

/-- One iteration of the `for t in sorted_tx` loop of `calculate_metrics`
(logic.py lines 34-99): commission accumulation, then open / build /
reduce-close (with the `round(net_qty, 8) == 0` clean-reset) / flip. -/
def applyTx (s : PosState) (t : TradeTransaction) : PosState :=
  let tc := s.total_commissions + t.commission
  if s.net_qty = 0 then
    { s with net_qty := t.quantity, avg_price := t.price, total_commissions := tc }
  else if (s.net_qty > 0 ∧ t.quantity > 0) ∨ (s.net_qty < 0 ∧ t.quantity < 0) then
    let total_value := |s.net_qty| * s.avg_price + |t.quantity| * t.price
    let nq := s.net_qty + t.quantity
    { s with net_qty := nq, avg_price := total_value / |nq|, total_commissions := tc }
  else if |t.quantity| ≤ |s.net_qty| then
    let qty_closed := |t.quantity|
    let trade_pnl :=
      if s.net_qty > 0 then (t.price - s.avg_price) * qty_closed
      else (s.avg_price - t.price) * qty_closed
    let nq := s.net_qty + t.quantity
    if pyRound nq 8 = 0 then
      { s with net_qty := 0, avg_price := 0,
               realized_pnl := s.realized_pnl + trade_pnl, total_commissions := tc }
    else
      { s with net_qty := nq,
               realized_pnl := s.realized_pnl + trade_pnl, total_commissions := tc }
  else
    let qty_closed := |s.net_qty|
    let trade_pnl :=
      if s.net_qty > 0 then (t.price - s.avg_price) * qty_closed
      else (s.avg_price - t.price) * qty_closed
    { s with net_qty := s.net_qty + t.quantity, avg_price := t.price,
             realized_pnl := s.realized_pnl + trade_pnl, total_commissions := tc }

/-- Stable insertion of an element into a key-sorted list: the new element
goes before the first element with a strictly later key (Python `sorted`
is stable). -/
def insertByTime {α : Type} (key : α → Time) (t : α) : List α → List α
  | [] => [t]
  | u :: us => if key t ≤ key u then t :: u :: us else u :: insertByTime key t us

/-- Python's stable `sorted(l, key=...)` as an insertion sort. -/
def sortByTime {α : Type} (key : α → Time) (l : List α) : List α :=
  l.foldr (insertByTime key) []

/-- `sorted(transactions, key=lambda t: t.timestamp)` (logic.py line 25). -/
def sortTx (l : List TradeTransaction) : List TradeTransaction :=
  sortByTime (·.timestamp) l

/-- The raw fold of `calculate_metrics` over the sorted transactions,
before the final rounding (the running `net_qty`, `avg_price`,
`realized_pnl`, `total_commissions` of logic.py lines 27-99). -/
def calcFold (transactions : List TradeTransaction) : PosState :=
  (sortTx transactions).foldl applyTx ⟨0, 0, 0, 0⟩

/-- `TradeCalculator.calculate_metrics` (logic.py lines 13-144).  `now` is
the value `datetime.now()` would return, passed explicitly so the ambient
dependence of `days_held` is visible in the model. -/
def calculate_metrics (transactions : List TradeTransaction) (current_price : ℚ)
    (initial_risk : ℚ) (now : Time) : TradeMetrics :=
  let sorted_tx := sortTx transactions
  let s := sorted_tx.foldl applyTx ⟨0, 0, 0, 0⟩
  let unrealized_pnl :=
    if s.net_qty ≠ 0 then
      if s.net_qty > 0 then (current_price - s.avg_price) * |s.net_qty|
      else (s.avg_price - current_price) * |s.net_qty|
    else 0
  let r_multiple :=
    if initial_risk ≠ 0 then (s.realized_pnl + unrealized_pnl) / initial_risk else 0
  let days_held : ℤ :=
    match sorted_tx.head?, sorted_tx.getLast? with
    | some t0, some tl =>
        if s.net_qty = 0 then Int.fdiv (tl.timestamp - t0.timestamp) 86400
        else Int.fdiv (now - t0.timestamp) 86400
    | _, _ => 0
  { net_quantity := pyRound s.net_qty 8
    avg_price := pyRound s.avg_price 4
    unrealized_pnl := pyRound unrealized_pnl 2
    realized_pnl := pyRound s.realized_pnl 2
    total_commissions := pyRound s.total_commissions 2
    initial_risk := initial_risk
    r_multiple := pyRound r_multiple 2
    days_held := days_held }

/-- Lifecycle statuses (`TradeStatus` enum, models.py). -/
inductive TradeStatus where
  | PLANNED | OPENING | OPEN | CLOSING | CLOSED | ARCHIVED
deriving DecidableEq, Repr

/-- Python dict key membership `k in d` over an insertion-ordered dict. -/
def dictMem {α : Type} (d : List (String × α)) (k : String) : Bool :=
  d.any fun kv => decide (kv.1 = k)

/-- Python dict assignment `d[k] = v`: update in place if the key exists,
otherwise append (insertion order preserved). -/
def dictSet {α : Type} (d : List (String × α)) (k : String) (v : α) :
    List (String × α) :=
  if dictMem d k then d.map (fun kv => if kv.1 = k then (k, v) else kv)
  else d ++ [(k, v)]

/-- Python dict lookup `d[k]` (as an `Option`). -/
def dictGet? {α : Type} (d : List (String × α)) (k : String) : Option α :=
  (d.find? fun kv => decide (kv.1 = k)).map (·.2)

/-- Python `del d[k]`. -/
def dictDel {α : Type} (d : List (String × α)) (k : String) : List (String × α) :=
  d.filter fun kv => decide (kv.1 ≠ k)

/-- The persisted `TradeState` (models.py).  `trade_type`, `entry_date` and
`notes` are never read by the modelled operations and are omitted.
`active_orders` maps a broker order id to its role (ENTRY / STOP / EXIT). -/
structure TradeState where
  id : String
  ticker : String
  status : TradeStatus
  transactions : List TradeTransaction
  active_orders : List (String × String)
  order_history : List TradeOrderLog
  initial_stop_price : Option ℚ
  current_stop_price : Option ℚ
deriving DecidableEq, Repr

/-- One outgoing call to the broker capability (`IExecutionProvider`). -/
inductive BrokerCall where
  | placeOrder (order_ref symbol : String) (quantity : ℚ)
      (limit_price stop_price : Option ℚ)
  | cancelOrder (order_id : String)
deriving DecidableEq, Repr

/-- Result of a lifecycle operation: the state the in-memory object holds
afterwards, the trace of broker calls issued, the exception message if the
call raised, whether `save()` was reached, and the returned string. -/
structure CallResult where
  state : TradeState
  calls : List BrokerCall
  err : Option String
  persisted : Bool
  retval : Option String
deriving DecidableEq, Repr

/-- Python truthiness of an optional float (`None` and `0.0` are falsy). -/
def truthyOpt : Option ℚ → Bool
  | none => false
  | some x => decide (x ≠ 0)

/-- `TradeObject._log_order` (core.py lines 220-241): the SUBMITTED
order-history entry, with the order type derived from the truthiness of the
limit and stop prices. -/
def logOrder (now : Time) (oid : String) (quantity : ℚ) (limit stop : Option ℚ)
    (msg : String) : TradeOrderLog :=
  let otype :=
    if truthyOpt limit && truthyOpt stop then "BRACKET/STP LMT"
    else if truthyOpt limit then "LMT"
    else if truthyOpt stop then "STP"
    else "MKT"
  { timestamp := now, order_id := oid,
    action := if quantity > 0 then "BUY" else "SELL",
    status := "SUBMITTED", message := msg, quantity := quantity, type := otype,
    limit_price := limit, stop_price := stop, trigger_price := stop, note := msg }

/-- The `self.metrics` property (core.py lines 131-149): current price
falls back to the last stored transaction's price, initial risk is derived
from the (truthy) initial stop price and the first stored transaction. -/
def metricsOf (s : TradeState) (now : Time) : TradeMetrics :=
  let current_price :=
    match s.transactions.getLast? with
    | some t => t.price
    | none => 0
  let initial_risk :=
    match s.initial_stop_price, s.transactions.head? with
    | some isp, some t0 => if isp ≠ 0 then |t0.price - isp| * |t0.quantity| else 0
    | _, _ => 0
  calculate_metrics s.transactions current_price initial_risk now

/-- `TradeObject.enter` (core.py lines 243-295).  `broker_oid` / `stop_oid`
are the order ids the broker returns from the two `place_order` calls.  The
guard reproduces the nested conditional of lines 251-256 exactly: the outer
test excludes PLANNED and CLOSED, so only the remaining four statuses raise. -/
def enter (s : TradeState) (quantity : ℚ) (limit_price stop_loss : Option ℚ)
    (broker_oid stop_oid : String) (now : Time) : CallResult :=
  if (s.status ≠ .PLANNED ∧ s.status ≠ .CLOSED) ∧ s.status ≠ .PLANNED then
    { state := s, calls := [], err := some "Cannot enter trade in status",
      persisted := false, retval := none }
  else
    let calls := [BrokerCall.placeOrder s.id s.ticker quantity limit_price none]
    let s := { s with
      order_history := s.order_history ++ [logOrder now broker_oid quantity limit_price none "Initial Entry"],
      status := .OPENING,
      active_orders := dictSet s.active_orders broker_oid "ENTRY" }
    match stop_loss with
    | some sl =>
        if sl ≠ 0 then
          let calls := calls ++ [BrokerCall.placeOrder s.id s.ticker (-quantity) none (some sl)]
          let s := { s with
            initial_stop_price := some sl,
            order_history := s.order_history ++ [logOrder now stop_oid (-quantity) none (some sl) "Initial Stop"],
            active_orders := dictSet s.active_orders stop_oid "STOP",
            current_stop_price := some sl }
          { state := s, calls := calls, err := none, persisted := true,
            retval := some broker_oid }
        else
          { state := s, calls := calls, err := none, persisted := true,
            retval := some broker_oid }
    | none =>
        { state := s, calls := calls, err := none, persisted := true,
          retval := some broker_oid }

/-- `TradeObject.set_stop_loss` (core.py lines 297-334): first cancels and
removes every STOP-role active order, then recomputes metrics and raises if
the net position is zero; otherwise places the replacement stop sized to
flatten the position, logs it, and persists.  `new_oid` is the broker's id
for the replacement order. -/
def set_stop_loss (s : TradeState) (new_stop_price : ℚ) (new_oid : String)
    (now : Time) : CallResult :=
  let to_cancel := (s.active_orders.filter fun kv => decide (kv.2 = "STOP")).map (·.1)
  let calls := to_cancel.map BrokerCall.cancelOrder
  let s := { s with
    active_orders := s.active_orders.filter fun kv => decide (kv.2 ≠ "STOP") }
  let metrics := metricsOf s now
  let qty_to_stop := -metrics.net_quantity
  if qty_to_stop = 0 then
    { state := s, calls := calls, err := some "No open position to protect.",
      persisted := false, retval := none }
  else
    let calls := calls ++ [BrokerCall.placeOrder s.id s.ticker qty_to_stop none (some new_stop_price)]
    let s := { s with
      order_history := s.order_history ++ [logOrder now new_oid qty_to_stop none (some new_stop_price) "Stop Adjustment"],
      active_orders := dictSet s.active_orders new_oid "STOP",
      current_stop_price := some new_stop_price }
    { state := s, calls := calls, err := none, persisted := true, retval := none }

/-- `TradeObject.cancel_order` (core.py lines 336-357): returns `false`
untouched if the id is not tracked; otherwise issues the broker cancel and
returns `true`, leaving the active set for `refresh()` to clean up. -/
def cancel_order (s : TradeState) (order_id : String) :
    TradeState × List BrokerCall × Bool :=
  if ¬ dictMem s.active_orders order_id then (s, [], false)
  else (s, [BrokerCall.cancelOrder order_id], true)

/-- `TradeObject.close` (core.py lines 359-388): if the net quantity is
already zero, short-circuits to CLOSED and returns "ALREADY_FLAT";
otherwise cancels every tracked order, clears the active set, places the
flattening market order (`close_oid` is its broker id) and becomes CLOSING. -/
def close (s : TradeState) (close_oid : String) (now : Time) : CallResult :=
  let metrics := metricsOf s now
  if metrics.net_quantity = 0 then
    { state := { s with status := .CLOSED }, calls := [], err := none,
      persisted := true, retval := some "ALREADY_FLAT" }
  else
    let calls := s.active_orders.map fun kv => BrokerCall.cancelOrder kv.1
    let s := { s with active_orders := [] }
    let calls := calls ++ [BrokerCall.placeOrder s.id s.ticker (-metrics.net_quantity) none none]
    let s := { s with
      status := TradeStatus.CLOSING,
      active_orders := dictSet s.active_orders close_oid "EXIT" }
    { state := s, calls := calls, err := none, persisted := true,
      retval := some close_oid }

/-- `BrokerUpdate` (interface.py): the broker's answer to `get_updates`.
`active_order_ids` is optional because refresh guards on `is not None`;
`cancelled_order_ids` is carried but never read by `refresh`. -/
structure BrokerUpdate where
  new_fills : List TradeTransaction
  active_order_ids : Option (List String)
  cancelled_order_ids : List String
deriving DecidableEq, Repr

/-- The FILLED order-history entry `refresh` appends for a newly ingested
fill (core.py lines 435-445).  The interpolated human-readable message
text is abstracted to a constant; no modelled operation reads it. -/
def fillLog (now : Time) (oid : String) (fill : TradeTransaction) : TradeOrderLog :=
  { timestamp := now, order_id := oid,
    action := if fill.quantity > 0 then "BUY" else "SELL",
    status := "FILLED", message := "Filled", quantity := fill.quantity,
    type := "FILL", limit_price := some fill.price, stop_price := none,
    trigger_price := none, note := "" }

/-- The CANCELLED order-history entry `refresh` appends for a tracked order
that vanished from the broker's active list without filling (core.py lines
474-484). -/
def cancelLog (now : Time) (oid : String) : TradeOrderLog :=
  { timestamp := now, order_id := oid, action := "CANCEL",
    status := "CANCELLED",
    message := "Order removed from active list (Cancelled/Expired)",
    quantity := 0, type := "CANCEL", limit_price := none, stop_price := none,
    trigger_price := none, note := "" }

/-- Accumulator of the fill-ingestion loop of `refresh` (core.py lines
414-445): the growing transaction list (its ids double as `existing_ids`),
the order history, the order ids that filled in this update, and the
`state_changed` flag. -/
structure RefreshAcc where
  transactions : List TradeTransaction
  order_history : List TradeOrderLog
  filled_order_ids : List String
  changed : Bool
deriving DecidableEq, Repr

/-- One iteration of the `for fill in updates.new_fills` loop of `refresh`:
skip fills whose execution id is already stored, otherwise append the
transaction and (when the fill names its order) a FILLED log entry. -/
def processFill (now : Time) (acc : RefreshAcc) (fill : TradeTransaction) :
    RefreshAcc :=
  if acc.transactions.any (fun t => decide (t.id = fill.id)) then acc
  else
    let acc := { acc with
      transactions := acc.transactions ++ [fill],
      changed := true }
    match fill.order_id with
    | none => acc
    | some oid =>
        { acc with
          filled_order_ids := acc.filled_order_ids ++ [oid],
          order_history := acc.order_history ++ [fillLog now oid fill] }

/-- Accumulator of the active-order cleanup loop of `refresh` (core.py
lines 456-484). -/
structure CleanupAcc where
  active : List (String × String)
  order_history : List TradeOrderLog
  changed : Bool
deriving DecidableEq, Repr

/-- One iteration of the `for oid in tracked_oids` loop of `refresh`: keep
entries the broker still reports active, drop the rest (flagging a change)
and log a CANCELLED event unless the order filled in this same update. -/
def cleanupStep (now : Time) (ids : List String) (filled : List String)
    (acc : CleanupAcc) (kv : String × String) : CleanupAcc :=
  if kv.1 ∈ ids then { acc with active := acc.active ++ [kv] }
  else
    { acc with
      order_history :=
        if kv.1 ∈ filled then acc.order_history
        else acc.order_history ++ [cancelLog now kv.1],
      changed := true }

/-- The status-transition block of `refresh` (core.py lines 491-500):
OPENING becomes OPEN on a non-zero net quantity; OPEN/CLOSING become CLOSED
on a zero net quantity, but only when the active-orders map is empty. -/
def refreshStatus (status : TradeStatus) (net_quantity : ℚ)
    (active_orders : List (String × String)) : TradeStatus :=
  if status = .OPENING ∧ net_quantity ≠ 0 then .OPEN
  else if (status = .OPEN ∨ status = .CLOSING) ∧ net_quantity = 0 then
    if active_orders = [] then .CLOSED else status
  else status

/-- `TradeObject.refresh` (core.py lines 399-503): ingest new fills
idempotently by execution id, reconcile the active-orders map against the
broker's still-active ids, recompute the net quantity via
`calculate_metrics`, apply the status transitions, and persist only if
anything changed.  Returns the new state and the `state_changed` flag
(`true` exactly when the file is rewritten). -/
def refresh (s : TradeState) (u : BrokerUpdate) (current_price : ℚ)
    (now : Time) : TradeState × Bool :=
  let acc0 : RefreshAcc := ⟨s.transactions, s.order_history, [], false⟩
  let acc := u.new_fills.foldl (processFill now) acc0
  let cl :=
    match u.active_order_ids with
    | none => (⟨s.active_orders, acc.order_history, acc.changed⟩ : CleanupAcc)
    | some ids =>
        s.active_orders.foldl (cleanupStep now ids acc.filled_order_ids)
          ⟨[], acc.order_history, acc.changed⟩
  let metrics := calculate_metrics acc.transactions current_price 0 now
  let status := refreshStatus s.status metrics.net_quantity cl.active
  let changed := cl.changed || decide (status ≠ s.status)
  ({ s with
      transactions := acc.transactions,
      order_history := cl.order_history,
      active_orders := cl.active,
      status := status },
   changed)

/-- Per-record replay state of `HistoryFactory.get_snapshot_at`
(history.py lines 56-98): net quantity, the "Simple Weighted Avg for
Longs" cost basis, the accumulated cash delta, and the `trade_active`
flag. -/
structure SnapPos where
  qty : ℚ
  cost_basis : ℚ
  cash : ℚ
  trade_active : Bool
deriving DecidableEq, Repr

/-- One iteration of the transaction loop of `get_snapshot_at` without the
cutoff filter (history.py lines 85-98): cash delta, quantity update, and a
cost-basis update only for positive (buy) quantities. -/
def snapStepNF (s : SnapPos) (t : TradeTransaction) : SnapPos :=
  let cash := s.cash + (-(t.quantity * t.price) - t.commission)
  let qty := s.qty + t.quantity
  let cost_basis :=
    if t.quantity > 0 then
      if qty ≠ 0 then (s.cost_basis * (qty - t.quantity) + t.quantity * t.price) / qty
      else 0
    else s.cost_basis
  { qty := qty, cost_basis := cost_basis, cash := cash,
    trade_active := decide (qty ≠ 0) }

/-- One iteration of the transaction loop of `get_snapshot_at` including
the `if tx_ts > target_dt: continue` cutoff (history.py line 71). -/
def snapStep (T : Time) (s : SnapPos) (t : TradeTransaction) : SnapPos :=
  if t.timestamp > T then s else snapStepNF s t

/-- The per-record position replay of `get_snapshot_at`: fold the stored
transaction list (in stored order) with the cutoff `T`.  The record
contributes a `PortfolioPosition` exactly when the final `qty ≠ 0`. -/
def snapReplay (transactions : List TradeTransaction) (T : Time) : SnapPos :=
  transactions.foldl (snapStep T) ⟨0, 0, 0, false⟩

/-- `sorted(state.order_history, key=lambda x: x.timestamp)` (history.py
line 131). -/
def sortLog (l : List TradeOrderLog) : List TradeOrderLog :=
  sortByTime (·.timestamp) l

/-- The `orders_state` dict of `get_snapshot_at` (history.py lines
129-144): walk the order log sorted by timestamp, stop at the first entry
past `T` (the loop `break`s), and keep the latest entry per order id. -/
def ordersStateAt (history : List TradeOrderLog) (T : Time) :
    List (String × TradeOrderLog) :=
  ((sortLog history).takeWhile fun l => decide (l.timestamp ≤ T)).foldl
    (fun m log => dictSet m log.order_id log) []

/-- The terminal statuses of history.py line 153. -/
def terminalStatuses : List String := ["FILLED", "CANCELLED", "REJECTED", "EXPIRED"]

/-- The order ids `get_snapshot_at` emits as active at `T` (history.py
lines 147-170): the keys of `orders_state` whose latest status is not
terminal. -/
def activeOrderIdsAt (history : List TradeOrderLog) (T : Time) : List String :=
  ((ordersStateAt history T).filter fun kv =>
    decide (kv.2.status ∉ terminalStatuses)).map (·.1)

/-- The latest entry for a given order id in a list scanned left to right
(later entries win), mirroring repeated dict assignment. -/
def lastMatch (id : String) : List TradeOrderLog → Option TradeOrderLog
  | [] => none
  | g :: l =>
      match lastMatch id l with
      | some x => some x
      | none => if g.order_id = id then some g else none

/-- Spec-side formulation of §4.3 step 2: replay the order-log stream in
timestamp order and take, per order id, the status of the latest entry with
timestamp at or before `T`. -/
def lastStatusAt (history : List TradeOrderLog) (id : String) (T : Time) :
    Option String :=
  (lastMatch id ((sortLog history).filter fun l => decide (l.timestamp ≤ T))).map
    (·.status)

/-- A SUBMITTED order-log entry at time `t` for order `oid` (concrete
instance data for the Submitted/Cancelled replay scenario). -/
def subLogAt (t : Time) (oid : String) : TradeOrderLog :=
  ⟨t, oid, "BUY", "SUBMITTED", "", 10, "LMT", some 100, none, none, ""⟩

/-- A CANCELLED order-log entry at time `t` for order `oid`. -/
def canLogAt (t : Time) (oid : String) : TradeOrderLog :=
  ⟨t, oid, "CANCEL", "CANCELLED", "", 0, "CANCEL", none, none, none, ""⟩

/-- A CLOSED record with no transactions and no orders (the failing input
of the `enter` status guard). -/
def closedFlatState : TradeState :=
  ⟨"TID", "ABC", .CLOSED, [], [], [], none, none⟩

/-- A flat OPEN record still tracking a lingering STOP-role order. -/
def openFlatWithStop : TradeState :=
  ⟨"TID", "ABC", .OPEN, [], [("S1", "STOP")], [], none, some 95⟩

/-- A PLANNED record with no transactions but one tracked active order. -/
def plannedWithOrder : TradeState :=
  ⟨"TID", "ABC", .PLANNED, [], [("E1", "ENTRY")], [], none, none⟩

/-- A flat record tracking one STOP-role and one ENTRY-role order. -/
def flatWithStopAndEntry : TradeState :=
  ⟨"TID", "ABC", .OPEN, [], [("S1", "STOP"), ("E1", "ENTRY")], [], none, some 95⟩

/-- Admissibility of a transaction sequence for the long-only equivalence
between the §4.1 calculator and the snapshot replay: tracked along the
calculator's own fold, every position opening must be a buy, quantities are
non-zero, and a reduction must not go below flat nor leave a non-zero
remainder that `round(·, 8)` flushes to zero. -/
def longOnlyOk : ℚ → List TradeTransaction → Bool
  | _, [] => true
  | net, t :: ts =>
      if net = 0 then
        decide (t.quantity > 0) && longOnlyOk t.quantity ts
      else
        decide (t.quantity ≠ 0) &&
        (if t.quantity > 0 then longOnlyOk (net + t.quantity) ts
         else
           decide (0 ≤ net + t.quantity) &&
           (decide (net + t.quantity = 0) || decide (pyRound (net + t.quantity) 8 ≠ 0)) &&
           longOnlyOk (net + t.quantity) ts)

/-!  ## Theorems  -/

theorem ratFloor_eq_floor (x : ℚ) : ratFloor x = ⌊x⌋ := by
  rw [ratFloor, Rat.floor_def, Int.fdiv_eq_ediv _ (by positivity)]

theorem bankersRound_intCast (n : ℤ) : bankersRound ((n : ℚ)) = n := by
  simp [bankersRound, ratFloor_eq_floor]

theorem pyRound_zero (n : ℕ) : pyRound 0 n = 0 := by
  have h := bankersRound_intCast 0
  simp only [Int.cast_zero] at h
  simp [pyRound, h]

theorem mem_insertByTime {α : Type} (key : α → Time) (t x : α) (l : List α) :
    x ∈ insertByTime key t l ↔ x = t ∨ x ∈ l := by
  induction l with
  | nil => simp [insertByTime]
  | cons u us ih =>
      by_cases h : key t ≤ key u
      · simp [insertByTime, h]
      · simp [insertByTime, h, ih]
        tauto

theorem pairwise_insertByTime {α : Type} (key : α → Time) (t : α) (l : List α)
    (hl : l.Pairwise fun a b => key a ≤ key b) :
    (insertByTime key t l).Pairwise fun a b => key a ≤ key b := by
  induction l with
  | nil => simp [insertByTime]
  | cons u us ih =>
      rcases List.pairwise_cons.mp hl with ⟨hu, hus⟩
      by_cases h : key t ≤ key u
      · rw [insertByTime, if_pos h]
        refine List.pairwise_cons.mpr ⟨?_, hl⟩
        intro x hx
        rcases List.mem_cons.mp hx with rfl | hx
        · exact h
        · exact le_trans h (hu x hx)
      · rw [insertByTime, if_neg h]
        refine List.pairwise_cons.mpr ⟨?_, ih hus⟩
        intro x hx
        rcases (mem_insertByTime key t x us).mp hx with hx | hx
        · subst hx; exact le_of_not_le h
        · exact hu x hx

theorem pairwise_sortByTime {α : Type} (key : α → Time) (l : List α) :
    (sortByTime key l).Pairwise fun a b => key a ≤ key b := by
  induction l with
  | nil => simp [sortByTime]
  | cons u us ih => exact pairwise_insertByTime key u _ ih

theorem sortByTime_eq_self {α : Type} (key : α → Time) (l : List α)
    (hl : l.Pairwise fun a b => key a ≤ key b) : sortByTime key l = l := by
  induction l with
  | nil => rfl
  | cons u us ih =>
      rcases List.pairwise_cons.mp hl with ⟨hu, hus⟩
      show insertByTime key u (sortByTime key us) = u :: us
      rw [ih hus]
      cases us with
      | nil => rfl
      | cons w ws => simp [insertByTime, hu w (by simp)]

theorem takeWhile_eq_filter_of_pairwise {α : Type} (key : α → Time) (T : Time)
    (l : List α) (hl : l.Pairwise fun a b => key a ≤ key b) :
    (l.takeWhile fun x => decide (key x ≤ T)) = l.filter fun x => decide (key x ≤ T) := by
  induction l with
  | nil => rfl
  | cons u us ih =>
      rcases List.pairwise_cons.mp hl with ⟨hu, hus⟩
      by_cases h : key u ≤ T
      · simp [List.takeWhile_cons, List.filter_cons, h, ih hus]
      · simp only [List.takeWhile_cons, List.filter_cons, h, decide_False]
        have : us.filter (fun x => decide (key x ≤ T)) = [] := by
          rw [List.filter_eq_nil_iff]
          intro x hx
          simp only [decide_eq_true_eq]
          intro hxT
          exact h (le_trans (hu x hx) hxT)
        simp [this]

/-- Claim C2 (amended): in a reduce/close step of `calculate_metrics`
(state with non-zero net quantity, opposite-signed transaction of no larger
magnitude), the realized PnL added is `(tx.price - avg_price) * |tx.qty|`
for a long and `(avg_price - tx.price) * |tx.qty|` for a short; the state
is reset to `net_qty = 0, avg_price = 0` exactly when the remainder rounds
to zero at 8 decimals (Python `round(net_qty, 8) == 0`), and otherwise both
the remainder and the unchanged average price are kept. -/
theorem c2_reduce_step (s : PosState) (t : TradeTransaction)
    (hnz : s.net_qty ≠ 0)
    (hop : (s.net_qty > 0 ∧ t.quantity < 0) ∨ (s.net_qty < 0 ∧ t.quantity > 0))
    (hle : |t.quantity| ≤ |s.net_qty|) :
    (applyTx s t).realized_pnl = s.realized_pnl +
      (if s.net_qty > 0 then t.price - s.avg_price else s.avg_price - t.price) * |t.quantity| ∧
    (pyRound (s.net_qty + t.quantity) 8 = 0 →
      (applyTx s t).net_qty = 0 ∧ (applyTx s t).avg_price = 0) ∧
    (pyRound (s.net_qty + t.quantity) 8 ≠ 0 →
      (applyTx s t).net_qty = s.net_qty + t.quantity ∧
      (applyTx s t).avg_price = s.avg_price) := by
  have hns : ¬ ((s.net_qty > 0 ∧ t.quantity > 0) ∨ (s.net_qty < 0 ∧ t.quantity < 0)) := by
    rcases hop with ⟨h1, h2⟩ | ⟨h1, h2⟩ <;> push_neg <;> constructor <;> intro h <;> linarith
  refine ⟨?_, ?_, ?_⟩
  · rw [applyTx]
    rw [if_neg hnz, if_neg hns, if_pos hle]
    by_cases hr : pyRound (s.net_qty + t.quantity) 8 = 0
    · rw [if_pos hr]
      by_cases hpos : s.net_qty > 0 <;> simp [hpos]
    · rw [if_neg hr]
      by_cases hpos : s.net_qty > 0 <;> simp [hpos]
  · intro hr
    rw [applyTx, if_neg hnz, if_neg hns, if_pos hle, if_pos hr]
    exact ⟨rfl, rfl⟩
  · intro hr
    rw [applyTx, if_neg hnz, if_neg hns, if_pos hle, if_neg hr]
    exact ⟨rfl, rfl⟩

/-- Claim C2 counterexample: from the state (net 10, avg 105), an opposite
sell of 10 - 10⁻⁹ leaves a non-zero remainder of 10⁻⁹, yet the code resets
both `net_qty` and `avg_price` to 0 because `round(net_qty, 8) == 0` — so
"avg_price is unchanged when a non-zero remainder is left" is false. -/
theorem c2_counterexample :
    (⟨10, 105, 0, 0⟩ : PosState).net_qty +
        (⟨"X1", 0, -(10 - 1/1000000000), 120, 0, none⟩ : TradeTransaction).quantity ≠ 0 ∧
    (applyTx ⟨10, 105, 0, 0⟩ ⟨"X1", 0, -(10 - 1/1000000000), 120, 0, none⟩).avg_price ≠
      (⟨10, 105, 0, 0⟩ : PosState).avg_price ∧
    (applyTx ⟨10, 105, 0, 0⟩ ⟨"X1", 0, -(10 - 1/1000000000), 120, 0, none⟩).net_qty ≠
      (⟨10, 105, 0, 0⟩ : PosState).net_qty +
        (⟨"X1", 0, -(10 - 1/1000000000), 120, 0, none⟩ : TradeTransaction).quantity := by
  have hpr : pyRound ((10 : ℚ) + -(10 - 1/1000000000)) 8 = 0 := by
    simp only [pyRound, bankersRound, ratFloor_eq_floor]
    norm_num
  have happ : applyTx ⟨10, 105, 0, 0⟩ ⟨"X1", 0, -(10 - 1/1000000000), 120, 0, none⟩ =
      ⟨0, 0, (120 - 105) * |(-(10 - 1/1000000000) : ℚ)|, 0⟩ := by
    rw [applyTx]
    rw [if_neg (by norm_num), if_neg (by norm_num), if_pos (by rw [abs_of_nonpos (by norm_num), abs_of_nonneg (by norm_num)]; norm_num)]
    rw [if_pos hpr]
    simp
  refine ⟨by norm_num, ?_, ?_⟩ <;> rw [happ] <;> norm_num

/-- Claim C2 witness: the spec's concrete partial close — from (net 20,
avg 105), selling 10 @ 120 realizes PnL 150 and keeps net 10, avg 105. -/
theorem c2_witness :
    (applyTx ⟨20, 105, 0, 0⟩ ⟨"X1", 0, -10, 120, 0, none⟩).realized_pnl = 150 ∧
    (applyTx ⟨20, 105, 0, 0⟩ ⟨"X1", 0, -10, 120, 0, none⟩).net_qty = 10 ∧
    (applyTx ⟨20, 105, 0, 0⟩ ⟨"X1", 0, -10, 120, 0, none⟩).avg_price = 105 := by
  have h := c2_reduce_step ⟨20, 105, 0, 0⟩ ⟨"X1", 0, -10, 120, 0, none⟩
    (by norm_num) (by norm_num) (by norm_num)
  obtain ⟨h1, -, h3⟩ := h
  have h4 := h3 (by simp only [pyRound, bankersRound, ratFloor_eq_floor]; norm_num)
  refine ⟨?_, ?_, ?_⟩
  · rw [h1]; norm_num
  · rw [h4.1]; norm_num
  · rw [h4.2]

/-- Claim C4 (code bug): the status guard of `enter` is the nested
conditional `if status not in [PLANNED, CLOSED]: if status != PLANNED:
raise`, so a CLOSED record slips through the guard: `enter` on a CLOSED
record raises nothing, places the entry order, and moves the record to
OPENING — contradicting both the spec ("requires current status = Planned;
fails otherwise") and the code's own comment ("keep it restricted to
PLANNED for now to follow lifecycle").  From any of the four other
non-Planned statuses (here: OPEN) it does raise without mutating state. -/
theorem c4_enter_guard_bug :
    (enter closedFlatState 10 none none "B1" "B2" 0).err = none ∧
    (enter closedFlatState 10 none none "B1" "B2" 0).state.status = TradeStatus.OPENING ∧
    (enter closedFlatState 10 none none "B1" "B2" 0).calls =
      [BrokerCall.placeOrder "TID" "ABC" 10 none none] ∧
    (enter closedFlatState 10 none none "B1" "B2" 0).persisted = true ∧
    (enter openFlatWithStop 10 none none "B1" "B2" 0).err =
      some "Cannot enter trade in status" ∧
    (enter openFlatWithStop 10 none none "B1" "B2" 0).state = openFlatWithStop ∧
    (enter openFlatWithStop 10 none none "B1" "B2" 0).calls = [] ∧
    (enter openFlatWithStop 10 none none "B1" "B2" 0).persisted = false := by
  exact ⟨rfl, rfl, rfl, rfl, rfl, rfl, rfl, rfl⟩

/-- Claim C7: `cancel_order` returns false exactly when the id is not in
the active-orders map, issuing no broker call and changing nothing in that
case; when the id is tracked it issues exactly the one broker cancel,
returns true, and the record state (in particular the active-orders map)
is unchanged either way. -/
theorem c7_cancel_order (s : TradeState) (oid : String) :
    (cancel_order s oid).1 = s ∧
    ((cancel_order s oid).2.2 = false ↔ dictMem s.active_orders oid = false) ∧
    ((cancel_order s oid).2.2 = false → (cancel_order s oid).2.1 = []) ∧
    ((cancel_order s oid).2.2 = true →
      (cancel_order s oid).2.1 = [BrokerCall.cancelOrder oid]) := by
  by_cases h : dictMem s.active_orders oid = true <;>
    simp [cancel_order, h]

/-- Claim C7 witness: on a record tracking orders S1 and E1, cancelling S1
returns true with exactly one broker cancel, and cancelling the unknown id
ZZ returns false with no broker call. -/
theorem c7_witness :
    (cancel_order flatWithStopAndEntry "S1").2.2 = true ∧
    (cancel_order flatWithStopAndEntry "S1").2.1 = [BrokerCall.cancelOrder "S1"] ∧
    (cancel_order flatWithStopAndEntry "ZZ").2.2 = false ∧
    (cancel_order flatWithStopAndEntry "ZZ").2.1 = [] ∧
    (cancel_order flatWithStopAndEntry "S1").1 = flatWithStopAndEntry := by
  have h1 := c7_cancel_order flatWithStopAndEntry "S1"
  have h2 := c7_cancel_order flatWithStopAndEntry "ZZ"
  exact ⟨rfl, h1.2.2.2 rfl, rfl, h2.2.2.1 rfl, h1.1⟩

/-- Claim C9: on a record whose net quantity (per `calculate_metrics`) is
zero, `set_stop_loss` raises the no-position error, places no new order,
leaves `current_stop_price`, the order history and the transactions
untouched, and does not persist — but it has already issued broker cancels
for every STOP-role active order and removed them from the active-orders
map, so the failed call is not atomic. -/
theorem c9_set_stop_loss_flat (s : TradeState) (sp : ℚ) (oid : String) (now : Time)
    (hflat : (metricsOf s now).net_quantity = 0) :
    (set_stop_loss s sp oid now).err = some "No open position to protect." ∧
    (set_stop_loss s sp oid now).state.current_stop_price = s.current_stop_price ∧
    (set_stop_loss s sp oid now).state.order_history = s.order_history ∧
    (set_stop_loss s sp oid now).state.transactions = s.transactions ∧
    (set_stop_loss s sp oid now).state.active_orders =
      s.active_orders.filter (fun kv => decide (kv.2 ≠ "STOP")) ∧
    (set_stop_loss s sp oid now).calls =
      ((s.active_orders.filter fun kv => decide (kv.2 = "STOP")).map (·.1)).map
        BrokerCall.cancelOrder ∧
    (set_stop_loss s sp oid now).persisted = false := by
  have hflat' : -(metricsOf { s with
      active_orders := s.active_orders.filter fun kv => decide (kv.2 ≠ "STOP") }
        now).net_quantity = 0 := by
    show -(metricsOf s now).net_quantity = 0
    rw [hflat, neg_zero]
  simp only [set_stop_loss]
  split_ifs
  exact ⟨rfl, rfl, rfl, rfl, rfl, rfl, rfl⟩

/-- Claim C9 witness: on a flat record tracking a STOP order S1 and an
ENTRY order E1, the failed `set_stop_loss` has cancelled and dropped S1 but
kept E1. -/
theorem c9_witness :
    (metricsOf flatWithStopAndEntry 0).net_quantity = 0 ∧
    (set_stop_loss flatWithStopAndEntry 95 "S2" 0).err =
      some "No open position to protect." ∧
    (set_stop_loss flatWithStopAndEntry 95 "S2" 0).state.active_orders =
      [("E1", "ENTRY")] ∧
    (set_stop_loss flatWithStopAndEntry 95 "S2" 0).calls =
      [BrokerCall.cancelOrder "S1"] := by
  have hflat : (metricsOf flatWithStopAndEntry 0).net_quantity = 0 := by
    show pyRound 0 8 = 0
    exact pyRound_zero 8
  have h := c9_set_stop_loss_flat flatWithStopAndEntry 95 "S2" 0 hflat
  refine ⟨hflat, h.1, ?_, ?_⟩
  · rw [h.2.2.2.2.1]; rfl
  · rw [h.2.2.2.2.2.1]; rfl

/-- Claim C10: `close` checks no status precondition; on any record whose
net quantity is zero — whatever its status, even a fresh PLANNED record —
it sets the status to CLOSED, persists, returns the sentinel
"ALREADY_FLAT", and in this flat branch issues no broker call and leaves
the active-orders map exactly as it was. -/
theorem c10_close_already_flat (s : TradeState) (oid : String) (now : Time)
    (hflat : (metricsOf s now).net_quantity = 0) :
    (close s oid now).retval = some "ALREADY_FLAT" ∧
    (close s oid now).state = { s with status := TradeStatus.CLOSED } ∧
    (close s oid now).calls = [] ∧
    (close s oid now).err = none ∧
    (close s oid now).persisted = true := by
  simp only [close]
  split_ifs
  exact ⟨rfl, rfl, rfl, rfl, rfl⟩

/-- Claim C10 witness: a PLANNED record with no transactions but a tracked
active order is closed to CLOSED, returns "ALREADY_FLAT", issues no broker
call, and keeps its active order. -/
theorem c10_witness :
    (metricsOf plannedWithOrder 0).net_quantity = 0 ∧
    (close plannedWithOrder "X" 0).retval = some "ALREADY_FLAT" ∧
    (close plannedWithOrder "X" 0).state.status = TradeStatus.CLOSED ∧
    (close plannedWithOrder "X" 0).state.active_orders =
      plannedWithOrder.active_orders ∧
    (close plannedWithOrder "X" 0).calls = [] := by
  have hflat : (metricsOf plannedWithOrder 0).net_quantity = 0 := by
    show pyRound 0 8 = 0
    exact pyRound_zero 8
  have h := c10_close_already_flat plannedWithOrder "X" 0 hflat
  refine ⟨hflat, h.1, ?_, ?_, h.2.2.1⟩
  · rw [h.2.1]
  · rw [h.2.1]

/-- Claim C8 (amended): `calculate_metrics` is a pure function of
(transactions, current price, initial risk, current time): every output
field except `days_held` is independent of the ambient current time, and
`days_held` is also independent of it whenever the final raw net quantity
is zero (flat position, where the last transaction time is used instead of
`datetime.now()`). -/
theorem c8_deterministic (txs : List TradeTransaction) (p r : ℚ) (now now' : Time) :
    (calculate_metrics txs p r now).net_quantity =
      (calculate_metrics txs p r now').net_quantity ∧
    (calculate_metrics txs p r now).avg_price =
      (calculate_metrics txs p r now').avg_price ∧
    (calculate_metrics txs p r now).unrealized_pnl =
      (calculate_metrics txs p r now').unrealized_pnl ∧
    (calculate_metrics txs p r now).realized_pnl =
      (calculate_metrics txs p r now').realized_pnl ∧
    (calculate_metrics txs p r now).total_commissions =
      (calculate_metrics txs p r now').total_commissions ∧
    (calculate_metrics txs p r now).initial_risk =
      (calculate_metrics txs p r now').initial_risk ∧
    (calculate_metrics txs p r now).r_multiple =
      (calculate_metrics txs p r now').r_multiple ∧
    ((calcFold txs).net_qty = 0 →
      (calculate_metrics txs p r now).days_held =
        (calculate_metrics txs p r now').days_held) := by
  refine ⟨rfl, rfl, rfl, rfl, rfl, rfl, rfl, ?_⟩
  intro h
  rw [calcFold] at h
  simp only [calculate_metrics]
  rcases hh : (sortTx txs).head? with _ | t0 <;>
    rcases hl : (sortTx txs).getLast? with _ | tl <;>
    simp [hh, hl, h]

/-- Claim C8 counterexample: the code reads `datetime.now()` to compute
`days_held` for an open position, so recomputation at a later instant
changes the output — a single buy of 10 @ 100 at t = 0 yields days_held 0
when computed at t = 0 but days_held 5 when recomputed five days later. -/
theorem c8_counterexample :
    calculate_metrics [⟨"T1", 0, 10, 100, 0, none⟩] 100 0 0 ≠
      calculate_metrics [⟨"T1", 0, 10, 100, 0, none⟩] 100 0 432000 := by
  intro heq
  have h := congrArg TradeMetrics.days_held heq
  norm_num [calculate_metrics, sortTx, sortByTime, insertByTime, applyTx] at h
  exact absurd h (by decide)

/-- Claim C8 witness: for a flat transaction list the full output,
`days_held` included, is independent of the recomputation instant. -/
theorem c8_witness :
    (calcFold []).net_qty = 0 ∧
    (calculate_metrics [] 100 0 0).days_held =
      (calculate_metrics [] 100 0 432000).days_held := by
  exact ⟨rfl, (c8_deterministic [] 100 0 0 432000).2.2.2.2.2.2.2 rfl⟩

theorem refreshStatus_cases (st : TradeStatus) (net : ℚ) (act : List (String × String)) :
    (st = .OPENING → (refreshStatus st net act = .OPEN ↔ net ≠ 0)) ∧
    ((st = .OPEN ∨ st = .CLOSING) →
      (refreshStatus st net act = .CLOSED ↔ net = 0 ∧ act = [])) ∧
    (st ≠ .CLOSED → act ≠ [] → refreshStatus st net act ≠ .CLOSED) ∧
    (refreshStatus st net act ≠ st →
      (st = .OPENING ∧ refreshStatus st net act = .OPEN) ∨
      ((st = .OPEN ∨ st = .CLOSING) ∧ refreshStatus st net act = .CLOSED)) := by
  cases st <;> by_cases hn : net = 0 <;> by_cases ha : act = [] <;>
    simp [refreshStatus, hn, ha]

/-- Claim C3: the status transitions `refresh` performs are exactly:
OPENING becomes OPEN iff the recomputed net quantity is non-zero, and
OPEN/CLOSING become CLOSED iff the recomputed net quantity is zero and the
reconciled active-orders map is empty; consequently a record that still
tracks an active order (e.g. a lingering stop) is never transitioned to
CLOSED by `refresh`, and no other status ever changes. -/
theorem c3_refresh_transitions (s : TradeState) (u : BrokerUpdate) (p : ℚ)
    (now : Time) :
    (s.status = .OPENING →
      ((refresh s u p now).1.status = .OPEN ↔
        (calculate_metrics (refresh s u p now).1.transactions p 0 now).net_quantity ≠ 0)) ∧
    ((s.status = .OPEN ∨ s.status = .CLOSING) →
      ((refresh s u p now).1.status = .CLOSED ↔
        (calculate_metrics (refresh s u p now).1.transactions p 0 now).net_quantity = 0 ∧
        (refresh s u p now).1.active_orders = [])) ∧
    (s.status ≠ .CLOSED → (refresh s u p now).1.active_orders ≠ [] →
      (refresh s u p now).1.status ≠ .CLOSED) ∧
    ((refresh s u p now).1.status ≠ s.status →
      (s.status = .OPENING ∧ (refresh s u p now).1.status = .OPEN) ∨
      ((s.status = .OPEN ∨ s.status = .CLOSING) ∧
        (refresh s u p now).1.status = .CLOSED)) := by
  have key : (refresh s u p now).1.status =
      refreshStatus s.status
        (calculate_metrics (refresh s u p now).1.transactions p 0 now).net_quantity
        (refresh s u p now).1.active_orders := rfl
  have h := refreshStatus_cases s.status
    (calculate_metrics (refresh s u p now).1.transactions p 0 now).net_quantity
    (refresh s u p now).1.active_orders
  rw [← key] at h
  exact h

/-- Claim C3 witness: a flat OPEN record whose broker still reports its
stop order S1 active keeps a non-empty active map after `refresh` and is
not transitioned to CLOSED. -/
theorem c3_witness :
    openFlatWithStop.status ≠ TradeStatus.CLOSED ∧
    (refresh openFlatWithStop ⟨[], some ["S1"], []⟩ 100 0).1.active_orders ≠ [] ∧
    (refresh openFlatWithStop ⟨[], some ["S1"], []⟩ 100 0).1.status ≠
      TradeStatus.CLOSED := by
  have hact : (refresh openFlatWithStop ⟨[], some ["S1"], []⟩ 100 0).1.active_orders ≠ [] := by
    show ([("S1", "STOP")] : List (String × String)) ≠ []
    simp
  exact ⟨by decide, hact,
    (c3_refresh_transitions openFlatWithStop ⟨[], some ["S1"], []⟩ 100 0).2.2.1
      (by decide) hact⟩

theorem refreshStatus_idem (st : TradeStatus) (net : ℚ) (act : List (String × String)) :
    refreshStatus (refreshStatus st net act) net act = refreshStatus st net act := by
  cases st <;> by_cases hn : net = 0 <;> by_cases ha : act = [] <;>
    simp [refreshStatus, hn, ha]

theorem foldl_processFill_noop (now : Time) (fills : List TradeTransaction) :
    ∀ acc : RefreshAcc, (∀ f ∈ fills, ∃ t ∈ acc.transactions, t.id = f.id) →
    fills.foldl (processFill now) acc = acc := by
  induction fills with
  | nil => intro acc _; rfl
  | cons f fs ih =>
      intro acc h
      have hf : processFill now acc f = acc := by
        have hany : acc.transactions.any (fun t => decide (t.id = f.id)) = true := by
          obtain ⟨t, ht, hid⟩ := h f (by simp)
          exact List.any_eq_true.mpr ⟨t, ht, by simp [hid]⟩
        rw [processFill, if_pos hany]
      rw [List.foldl_cons, hf]
      exact ih acc fun g hg => h g (by simp [hg])

theorem foldl_processFill_mono (now : Time) (fills : List TradeTransaction) :
    ∀ (acc : RefreshAcc) (t : TradeTransaction), t ∈ acc.transactions →
    t ∈ (fills.foldl (processFill now) acc).transactions := by
  induction fills with
  | nil => exact fun _ _ h => h
  | cons f fs ih =>
      intro acc t h
      rw [List.foldl_cons]
      apply ih
      rw [processFill]
      split_ifs with hc
      · exact h
      · cases ho : f.order_id <;> simp [h]

theorem foldl_processFill_covers (now : Time) (fills : List TradeTransaction) :
    ∀ (acc : RefreshAcc) (f : TradeTransaction), f ∈ fills →
    ∃ t ∈ (fills.foldl (processFill now) acc).transactions, t.id = f.id := by
  induction fills with
  | nil => simp
  | cons g gs ih =>
      intro acc f hf
      rw [List.foldl_cons]
      rcases List.mem_cons.mp hf with rfl | hf
      · have hg : ∃ t ∈ (processFill now acc f).transactions, t.id = f.id := by
          rw [processFill]
          split_ifs with hc
          · obtain ⟨t, ht, hid⟩ := List.any_eq_true.mp hc
            exact ⟨t, ht, by simpa using hid⟩
          · cases ho : f.order_id <;> simp <;> exact ⟨f, Or.inr rfl, rfl⟩
        obtain ⟨t, ht, hid⟩ := hg
        exact ⟨t, foldl_processFill_mono now gs _ t ht, hid⟩
      · exact ih _ f hf

theorem foldl_cleanupStep_active (now : Time) (ids filled : List String)
    (kvs : List (String × String)) :
    ∀ acc : CleanupAcc,
    (kvs.foldl (cleanupStep now ids filled) acc).active =
      acc.active ++ kvs.filter fun kv => decide (kv.1 ∈ ids) := by
  induction kvs with
  | nil => intro acc; simp
  | cons kv kvs ih =>
      intro acc
      rw [List.foldl_cons, cleanupStep]
      by_cases h : kv.1 ∈ ids
      · rw [if_pos h, ih]
        simp [List.filter_cons, h]
      · rw [if_neg h, ih]
        simp [List.filter_cons, h]

theorem foldl_cleanupStep_keep (now : Time) (ids filled : List String)
    (kvs : List (String × String)) :
    ∀ acc : CleanupAcc,
    (∀ kv ∈ kvs, kv.1 ∈ ids) →
    kvs.foldl (cleanupStep now ids filled) acc =
      { acc with active := acc.active ++ kvs } := by
  induction kvs with
  | nil => intro acc _; simp
  | cons kv kvs ih =>
      intro acc h
      rw [List.foldl_cons, cleanupStep, if_pos (h kv (by simp))]
      rw [ih _ fun x hx => h x (by simp [hx])]
      simp

/-- `refresh` leaves the state untouched and reports no change when the
broker update carries nothing new: every fill id is already stored, every
tracked order is still active, and the status transition function fixes
the status. -/
theorem refresh_noop (s : TradeState) (u : BrokerUpdate) (p : ℚ) (now : Time)
    (hfills : ∀ f ∈ u.new_fills, ∃ t ∈ s.transactions, t.id = f.id)
    (hactive : ∀ ids, u.active_order_ids = some ids →
      ∀ kv ∈ s.active_orders, kv.1 ∈ ids)
    (hstatus : refreshStatus s.status
      (calculate_metrics s.transactions p 0 now).net_quantity s.active_orders =
      s.status) :
    refresh s u p now = (s, false) := by
  have hA : u.new_fills.foldl (processFill now)
      ⟨s.transactions, s.order_history, [], false⟩ =
      ⟨s.transactions, s.order_history, [], false⟩ :=
    foldl_processFill_noop now u.new_fills _ (by simpa using hfills)
  simp only [refresh, hA]
  cases hao : u.active_order_ids with
  | none =>
      dsimp only
      rw [hstatus]
      simp
  | some ids =>
      dsimp only
      rw [foldl_cleanupStep_keep now ids [] s.active_orders
        ⟨[], s.order_history, false⟩ (hactive ids hao)]
      rw [List.nil_append, hstatus]
      simp

theorem refresh_active_mem (s : TradeState) (u : BrokerUpdate) (p : ℚ) (now : Time)
    (ids : List String) (hao : u.active_order_ids = some ids) :
    ∀ kv ∈ (refresh s u p now).1.active_orders, kv.1 ∈ ids := by
  intro kv hkv
  simp only [refresh, hao] at hkv
  rw [foldl_cleanupStep_active] at hkv
  simp only [List.nil_append, List.mem_filter, decide_eq_true_eq] at hkv
  exact hkv.2

/-- Claim C5: `refresh` is idempotent with respect to an unchanged broker
response — a second `refresh` fed the same `new_fills` and
`active_order_ids` (at any price and any instant) returns the state of the
first call unchanged (no transaction, no order-log entry, no status
change) and reports `state_changed = false`, so the persisted file is not
rewritten. -/
theorem c5_refresh_idempotent (s : TradeState) (u : BrokerUpdate) (p p' : ℚ)
    (now now' : Time) :
    refresh (refresh s u p now).1 u p' now' = ((refresh s u p now).1, false) := by
  apply refresh_noop
  · intro f hf
    have hX : (refresh s u p now).1.transactions =
        (u.new_fills.foldl (processFill now)
          ⟨s.transactions, s.order_history, [], false⟩).transactions := rfl
    rw [hX]
    exact foldl_processFill_covers now u.new_fills _ f hf
  · intro ids hao
    exact refresh_active_mem s u p now ids hao
  · have hkey : (refresh s u p now).1.status =
        refreshStatus s.status
          ((calculate_metrics (refresh s u p now).1.transactions p' 0 now').net_quantity)
          (refresh s u p now).1.active_orders := rfl
    rw [hkey, refreshStatus_idem]

theorem dictGet?_cons {α : Type} (e : String × α) (d : List (String × α)) (id : String) :
    dictGet? (e :: d) id = if e.1 = id then some e.2 else dictGet? d id := by
  by_cases h : e.1 = id <;> simp [dictGet?, List.find?_cons, h]

theorem dictMem_cons {α : Type} (e : String × α) (d : List (String × α)) (k : String) :
    dictMem (e :: d) k = (decide (e.1 = k) || dictMem d k) := by
  simp [dictMem]

theorem dictGet?_map_update {α : Type} (d : List (String × α)) (k id : String) (v : α) :
    dictGet? (d.map fun kv => if kv.1 = k then (k, v) else kv) id =
      if id = k then (if dictMem d k then some v else none) else dictGet? d id := by
  induction d with
  | nil => by_cases h : id = k <;> simp [dictGet?, dictMem, h]
  | cons e d ih =>
      by_cases hek : e.1 = k <;> by_cases hik : id = k <;>
        simp only [List.map_cons, dictGet?_cons, dictMem_cons, hek, hik, ih]
      · simp
      · have hki : ¬ k = id := fun h => hik h.symm
        simp [hki]
      · subst hik
        simp only [if_false, reduceIte, hek, decide_False, Bool.false_or]
        simpa using ih
      · have hki : ¬ k = id := fun h => hik h.symm
        simp [hek, hki]

theorem dictGet?_dictSet {α : Type} (d : List (String × α)) (k id : String) (v : α) :
    dictGet? (dictSet d k v) id = if id = k then some v else dictGet? d id := by
  rw [dictSet]
  by_cases hm : dictMem d k
  · rw [if_pos hm, dictGet?_map_update, if_pos hm]
  · rw [if_neg hm]
    induction d with
    | nil =>
        by_cases h : id = k
        · simp [dictGet?, h]
        · have h' : ¬ k = id := fun hh => h hh.symm
          simp [dictGet?, h, h']
    | cons e d ih =>
        have hm' : ¬ dictMem d k := by
          intro hd
          exact hm (by simp [dictMem_cons, hd])
        rw [List.cons_append, dictGet?_cons, dictGet?_cons, ih hm']
        by_cases h : e.1 = id
        · have hik : ¬ id = k := by
            intro hh
            apply hm
            rw [dictMem_cons]
            simp [h.trans hh]
          simp [h, hik]
        · simp [h]

theorem dictMem_false {α : Type} (d : List (String × α)) (k : String) :
    dictMem d k = false ↔ k ∉ d.map Prod.fst := by
  rw [Bool.eq_false_iff, Ne, dictMem]
  simp [List.any_eq_true, List.mem_map]

theorem keys_dictSet {α : Type} (d : List (String × α)) (k : String) (v : α) :
    (dictSet d k v).map Prod.fst =
      if dictMem d k then d.map Prod.fst else d.map Prod.fst ++ [k] := by
  rw [dictSet]
  by_cases h : dictMem d k
  · rw [if_pos h, if_pos h, List.map_map]
    apply List.map_congr_left
    intro kv _
    by_cases hk : kv.1 = k <;> simp [hk]
  · rw [if_neg h, if_neg h, List.map_append]
    rfl

theorem keys_nodup_logfold (l : List TradeOrderLog) :
    ∀ m : List (String × TradeOrderLog), (m.map Prod.fst).Nodup →
    ((l.foldl (fun m log => dictSet m log.order_id log) m).map Prod.fst).Nodup := by
  induction l with
  | nil => exact fun _ h => h
  | cons g l ih =>
      intro m hm
      rw [List.foldl_cons]
      apply ih
      rw [keys_dictSet]
      by_cases h : dictMem m g.order_id
      · rw [if_pos h]
        exact hm
      · rw [if_neg h]
        have hnot : g.order_id ∉ m.map Prod.fst :=
          (dictMem_false m g.order_id).mp (by simpa using h)
        simp [List.nodup_append, hm, hnot]

theorem dictGet?_eq_some_of_mem {α : Type} (d : List (String × α))
    (hnd : (d.map Prod.fst).Nodup) (k : String) (v : α) (h : (k, v) ∈ d) :
    dictGet? d k = some v := by
  induction d with
  | nil => cases h
  | cons e d ih =>
      rw [dictGet?_cons]
      rcases List.mem_cons.mp h with he | h
      · rw [← he]
        simp
      · have hk : e.1 ≠ k := by
          intro he
          have hkin : k ∈ d.map Prod.fst := List.mem_map.mpr ⟨(k, v), h, rfl⟩
          rw [List.map_cons, List.nodup_cons] at hnd
          exact hnd.1 (he ▸ hkin)
        rw [if_neg hk]
        exact ih (by rw [List.map_cons, List.nodup_cons] at hnd; exact hnd.2) h

theorem mem_of_dictGet?_eq_some {α : Type} (d : List (String × α)) (k : String)
    (v : α) (h : dictGet? d k = some v) : (k, v) ∈ d := by
  induction d with
  | nil => simp [dictGet?] at h
  | cons e d ih =>
      rw [dictGet?_cons] at h
      by_cases hk : e.1 = k
      · rw [if_pos hk] at h
        have hv : e.2 = v := by simpa using h
        have he : e = (k, v) := Prod.ext hk hv
        exact List.mem_cons.mpr (Or.inl he.symm)
      · rw [if_neg hk] at h
        exact List.mem_cons.mpr (Or.inr (ih h))

theorem dictGet?_logfold (l : List TradeOrderLog) :
    ∀ (m : List (String × TradeOrderLog)) (id : String),
    dictGet? (l.foldl (fun m log => dictSet m log.order_id log) m) id =
      match lastMatch id l with
      | some g => some g
      | none => dictGet? m id := by
  induction l with
  | nil => intro m id; simp [lastMatch]
  | cons g l ih =>
      intro m id
      rw [List.foldl_cons, ih, lastMatch]
      cases hlm : lastMatch id l with
      | some x => simp
      | none =>
          simp only []
          rw [dictGet?_dictSet]
          by_cases h : g.order_id = id
          · simp [h]
          · have h' : ¬ id = g.order_id := fun hh => h hh.symm
            simp [h, h']

theorem mem_activeOrderIdsAt (history : List TradeOrderLog) (T : Time) (id : String) :
    id ∈ activeOrderIdsAt history T ↔
      ∃ g, dictGet? (ordersStateAt history T) id = some g ∧
        g.status ∉ terminalStatuses := by
  have hnd : ((ordersStateAt history T).map Prod.fst).Nodup :=
    keys_nodup_logfold _ [] (by simp)
  rw [activeOrderIdsAt]
  constructor
  · intro h
    obtain ⟨kv, hkv, hfst⟩ := List.mem_map.mp h
    rw [List.mem_filter] at hkv
    obtain ⟨hmem, hst⟩ := hkv
    refine ⟨kv.2, ?_, by simpa using hst⟩
    rw [← hfst]
    exact dictGet?_eq_some_of_mem _ hnd kv.1 kv.2 hmem
  · rintro ⟨g, hg, hst⟩
    have hmem := mem_of_dictGet?_eq_some _ _ _ hg
    exact List.mem_map.mpr
      ⟨(id, g), List.mem_filter.mpr ⟨hmem, by simpa using hst⟩, rfl⟩

theorem ordersStateAt_get (history : List TradeOrderLog) (T : Time) (id : String) :
    dictGet? (ordersStateAt history T) id =
      lastMatch id ((sortLog history).filter fun l => decide (l.timestamp ≤ T)) := by
  have htf : (sortLog history).takeWhile (fun l => decide (l.timestamp ≤ T)) =
      (sortLog history).filter (fun l => decide (l.timestamp ≤ T)) :=
    takeWhile_eq_filter_of_pairwise (fun l : TradeOrderLog => l.timestamp) T
      (sortLog history)
      (pairwise_sortByTime (fun l : TradeOrderLog => l.timestamp) history)
  rw [ordersStateAt, dictGet?_logfold, htf]
  cases hlm : lastMatch id ((sortLog history).filter fun l => decide (l.timestamp ≤ T)) with
  | some x => simp
  | none => simp [dictGet?]

theorem active_iff_lastStatus (history : List TradeOrderLog) (T : Time) (id : String) :
    id ∈ activeOrderIdsAt history T ↔
      ∃ st, lastStatusAt history id T = some st ∧ st ∉ terminalStatuses := by
  rw [mem_activeOrderIdsAt, lastStatusAt]
  rw [ordersStateAt_get]
  cases hlm : lastMatch id ((sortLog history).filter fun l => decide (l.timestamp ≤ T)) with
  | some g => simp
  | none => simp

theorem submitted_then_cancelled_active (t1 t2 T : Time) (oid : String)
    (h1 : t1 ≤ T) (h2 : T < t2) :
    oid ∈ activeOrderIdsAt [subLogAt t1 oid, canLogAt t2 oid] T := by
  apply (active_iff_lastStatus _ _ _).mpr
  refine ⟨"SUBMITTED", ?_, by decide⟩
  have h12 : t1 ≤ t2 := le_trans h1 (le_of_lt h2)
  have hsort : sortLog [subLogAt t1 oid, canLogAt t2 oid] =
      [subLogAt t1 oid, canLogAt t2 oid] := by
    apply sortByTime_eq_self
    simp only [List.pairwise_cons]
    refine ⟨?_, by simp, by simp⟩
    intro a ha
    rcases List.mem_singleton.mp ha with rfl
    exact h12
  rw [lastStatusAt, hsort]
  have hf1 : decide ((subLogAt t1 oid).timestamp ≤ T) = true := by
    simp only [subLogAt, decide_eq_true_eq]
    exact h1
  have hf2 : decide ((canLogAt t2 oid).timestamp ≤ T) = false := by
    simp only [canLogAt, decide_eq_false_iff_not]
    exact not_le.mpr h2
  rw [List.filter_cons, List.filter_cons, hf1, hf2]
  simp [lastMatch, subLogAt]

theorem submitted_then_cancelled_inactive (t1 t2 T : Time) (oid : String)
    (h1 : t1 < t2) (h2 : t2 ≤ T) :
    oid ∉ activeOrderIdsAt [subLogAt t1 oid, canLogAt t2 oid] T := by
  intro hmem
  obtain ⟨st, hst, hterm⟩ := (active_iff_lastStatus _ _ _).mp hmem
  have hsort : sortLog [subLogAt t1 oid, canLogAt t2 oid] =
      [subLogAt t1 oid, canLogAt t2 oid] := by
    apply sortByTime_eq_self
    simp only [List.pairwise_cons]
    refine ⟨?_, by simp, by simp⟩
    intro a ha
    rcases List.mem_singleton.mp ha with rfl
    exact le_of_lt h1
  rw [lastStatusAt, hsort] at hst
  have hf1 : decide ((subLogAt t1 oid).timestamp ≤ T) = true := by
    simp only [subLogAt, decide_eq_true_eq]
    exact le_trans (le_of_lt h1) h2
  have hf2 : decide ((canLogAt t2 oid).timestamp ≤ T) = true := by
    simp only [canLogAt, decide_eq_true_eq]
    exact h2
  rw [List.filter_cons, List.filter_cons, hf1, hf2] at hst
  simp [lastMatch, canLogAt] at hst
  rw [← hst] at hterm
  exact hterm (by decide)

/-- Claim C6: an order id is emitted as active at `T` by the snapshot
order replay exactly when the latest status logged for it at or before `T`
(over the timestamp-sorted log stream) is none of FILLED, CANCELLED,
REJECTED, EXPIRED; in particular an order with a SUBMITTED entry at `t1`
and a CANCELLED entry at `t2 > t1` is active for every `T` with
`t1 ≤ T < t2` and inactive for every `T ≥ t2`. -/
theorem c6_active_orders_replay :
    (∀ (history : List TradeOrderLog) (T : Time) (id : String),
      id ∈ activeOrderIdsAt history T ↔
        ∃ st, lastStatusAt history id T = some st ∧ st ∉ terminalStatuses) ∧
    (∀ (t1 t2 T : Time) (oid : String), t1 ≤ T → T < t2 →
      oid ∈ activeOrderIdsAt [subLogAt t1 oid, canLogAt t2 oid] T) ∧
    (∀ (t1 t2 T : Time) (oid : String), t1 < t2 → t2 ≤ T →
      oid ∉ activeOrderIdsAt [subLogAt t1 oid, canLogAt t2 oid] T) :=
  ⟨active_iff_lastStatus, submitted_then_cancelled_active,
    submitted_then_cancelled_inactive⟩

/-- Claim C6 witness: order O1 submitted at t = 10 and cancelled at
t = 20 is reported active at T = 15 and not active at T = 25. -/
theorem c6_witness :
    (10 : Time) ≤ 15 ∧ (15 : Time) < 20 ∧ (10 : Time) < 20 ∧ (20 : Time) ≤ 25 ∧
    "O1" ∈ activeOrderIdsAt [subLogAt 10 "O1", canLogAt 20 "O1"] 15 ∧
    "O1" ∉ activeOrderIdsAt [subLogAt 10 "O1", canLogAt 20 "O1"] 25 := by
  refine ⟨by norm_num, by norm_num, by norm_num, by norm_num, ?_, ?_⟩
  · exact c6_active_orders_replay.2.1 10 20 15 "O1" (by norm_num) (by norm_num)
  · exact c6_active_orders_replay.2.2 10 20 25 "O1" (by norm_num) (by norm_num)

theorem foldl_snapStep_filter (T : Time) (txs : List TradeTransaction) :
    ∀ b : SnapPos, txs.foldl (snapStep T) b =
      (txs.filter fun t => decide (t.timestamp ≤ T)).foldl snapStepNF b := by
  induction txs with
  | nil => intro b; rfl
  | cons t ts ih =>
      intro b
      by_cases h : t.timestamp > T
      · have haux : decide (t.timestamp ≤ T) = false := decide_eq_false (not_le.mpr h)
        rw [List.foldl_cons, List.filter_cons, haux]
        rw [snapStep, if_pos h]
        exact ih b
      · have haux : decide (t.timestamp ≤ T) = true := decide_eq_true (not_lt.mp h)
        rw [List.foldl_cons, List.filter_cons, haux]
        rw [snapStep, if_neg h]
        exact ih (snapStepNF b t)

theorem calc_snap_agree (l : List TradeTransaction) :
    ∀ (a : PosState) (b : SnapPos),
    longOnlyOk a.net_qty l = true → a.net_qty = b.qty → 0 ≤ a.net_qty →
    (0 < a.net_qty → b.cost_basis = a.avg_price) →
    (l.foldl applyTx a).net_qty = (l.foldl snapStepNF b).qty ∧
    0 ≤ (l.foldl applyTx a).net_qty ∧
    (0 < (l.foldl applyTx a).net_qty →
      (l.foldl snapStepNF b).cost_basis = (l.foldl applyTx a).avg_price) := by
  induction l with
  | nil => intro a b _ hq hnn hcb; exact ⟨hq, hnn, hcb⟩
  | cons t ts ih =>
      intro a b hok hq hnn hcb
      rw [List.foldl_cons, List.foldl_cons]
      simp only [longOnlyOk] at hok
      by_cases h0 : a.net_qty = 0
      · rw [if_pos h0, Bool.and_eq_true] at hok
        have hpos : 0 < t.quantity := of_decide_eq_true hok.1
        have hbq : b.qty = 0 := hq ▸ h0
        have e1 : applyTx a t = { a with
            net_qty := t.quantity
            avg_price := t.price
            total_commissions := a.total_commissions + t.commission } := by
          simp only [applyTx]
          rw [if_pos h0]
        have e2q : (snapStepNF b t).qty = t.quantity := by
          simp only [snapStepNF, hbq, zero_add]
        have e2c : (snapStepNF b t).cost_basis = t.price := by
          simp only [snapStepNF, hbq, zero_add]
          rw [if_pos hpos, if_pos (by exact_mod_cast hpos.ne')]
          rw [sub_self, mul_zero, zero_add]
          exact mul_div_cancel_left₀ t.price hpos.ne'
        refine ih (applyTx a t) (snapStepNF b t) ?_ ?_ ?_ ?_
        · rw [e1]
          exact hok.2
        · rw [e1, e2q]
        · rw [e1]
          exact le_of_lt hpos
        · intro _
          rw [e1, e2c]
      · rw [if_neg h0, Bool.and_eq_true] at hok
        obtain ⟨hnzb, hok⟩ := hok
        have hnz : t.quantity ≠ 0 := of_decide_eq_true hnzb
        have hpos0 : 0 < a.net_qty := lt_of_le_of_ne hnn (Ne.symm h0)
        by_cases hq0 : t.quantity > 0
        · -- building: same sign
          rw [if_pos hq0] at hok
          have hcond : (a.net_qty > 0 ∧ t.quantity > 0) ∨
              (a.net_qty < 0 ∧ t.quantity < 0) := Or.inl ⟨hpos0, hq0⟩
          have hnqpos : 0 < a.net_qty + t.quantity := by linarith
          have e1 : applyTx a t = { a with
              net_qty := a.net_qty + t.quantity
              avg_price := (|a.net_qty| * a.avg_price + |t.quantity| * t.price) /
                |a.net_qty + t.quantity|
              total_commissions := a.total_commissions + t.commission } := by
            simp only [applyTx]
            rw [if_neg h0, if_pos hcond]
          have e2q : (snapStepNF b t).qty = a.net_qty + t.quantity := by
            simp only [snapStepNF, ← hq]
          have e2c : (snapStepNF b t).cost_basis =
              (b.cost_basis * a.net_qty + t.quantity * t.price) /
                (a.net_qty + t.quantity) := by
            simp only [snapStepNF, ← hq]
            rw [if_pos hq0, if_pos (by exact_mod_cast hnqpos.ne')]
            ring_nf
          refine ih (applyTx a t) (snapStepNF b t) ?_ ?_ ?_ ?_
          · rw [e1]
            exact hok
          · rw [e1, e2q]
          · rw [e1]
            exact le_of_lt hnqpos
          · intro _
            rw [e1, e2c, hcb hpos0, abs_of_pos hpos0, abs_of_pos hq0,
              abs_of_pos hnqpos]
            ring
        · -- reducing: opposite sign, |q| ≤ |net|
          have hqneg : t.quantity < 0 := lt_of_le_of_ne (not_lt.mp hq0) hnz
          rw [if_neg hq0] at hok
          simp only [Bool.and_eq_true, Bool.or_eq_true, decide_eq_true_eq] at hok
          obtain ⟨⟨hge, hzor⟩, hok⟩ := hok
          have hncond : ¬ ((a.net_qty > 0 ∧ t.quantity > 0) ∨
              (a.net_qty < 0 ∧ t.quantity < 0)) := by
            rintro (⟨_, hg⟩ | ⟨hl, _⟩) <;> linarith
          have habs : |t.quantity| ≤ |a.net_qty| := by
            rw [abs_of_neg hqneg, abs_of_pos hpos0]
            linarith
          have e2q : (snapStepNF b t).qty = a.net_qty + t.quantity := by
            simp only [snapStepNF, ← hq]
          have e2c : (snapStepNF b t).cost_basis = b.cost_basis := by
            simp only [snapStepNF]
            rw [if_neg hq0]
          by_cases hr : pyRound (a.net_qty + t.quantity) 8 = 0
          · have hzero : a.net_qty + t.quantity = 0 := by
              rcases hzor with hz | hnr
              · exact hz
              · exact absurd hr hnr
            have e1 : applyTx a t = { a with
                net_qty := 0
                avg_price := 0
                realized_pnl := a.realized_pnl +
                  (if a.net_qty > 0 then (t.price - a.avg_price) * |t.quantity|
                   else (a.avg_price - t.price) * |t.quantity|)
                total_commissions := a.total_commissions + t.commission } := by
              simp only [applyTx]
              rw [if_neg h0, if_neg hncond, if_pos habs, if_pos hr]
            refine ih (applyTx a t) (snapStepNF b t) ?_ ?_ ?_ ?_
            · rw [e1]
              show longOnlyOk 0 ts = true
              rw [← hzero]
              exact hok
            · rw [e1, e2q, hzero]
            · rw [e1]
            · intro hgt
              rw [e1] at hgt
              exact absurd hgt (lt_irrefl 0)
          · have hnq0 : a.net_qty + t.quantity ≠ 0 := by
              intro hz
              exact hr (by rw [hz]; exact pyRound_zero 8)
            have hnqpos : 0 < a.net_qty + t.quantity :=
              lt_of_le_of_ne hge (Ne.symm hnq0)
            have e1 : applyTx a t = { a with
                net_qty := a.net_qty + t.quantity
                realized_pnl := a.realized_pnl +
                  (if a.net_qty > 0 then (t.price - a.avg_price) * |t.quantity|
                   else (a.avg_price - t.price) * |t.quantity|)
                total_commissions := a.total_commissions + t.commission } := by
              simp only [applyTx]
              rw [if_neg h0, if_neg hncond, if_pos habs, if_neg hr]
            refine ih (applyTx a t) (snapStepNF b t) ?_ ?_ ?_ ?_
            · rw [e1]
              exact hok
            · rw [e1, e2q]
            · rw [e1]
              exact le_of_lt hnqpos
            · intro _
              rw [e1, e2c]
              exact hcb hpos0

/-- Claim C1 (amended): the per-position replay of `get_snapshot_at` agrees
with the §4.1 calculator only on long-only histories: for a
timestamp-sorted transaction list whose ≤-T prefix opens every position
with a buy, never goes short, and leaves no reduction remainder that
`round(·, 8)` flushes to zero, the snapshot's replayed quantity and (when a
position is reported, i.e. the quantity is non-zero) its cost basis equal
the `calculate_metrics` net quantity and average price up to the final
decimal rounding that `calculate_metrics` applies (8 and 4 digits). -/
theorem c1_snapshot_vs_calculator (txs : List TradeTransaction) (T : Time)
    (cp r : ℚ) (now : Time)
    (hsorted : txs.Pairwise fun a b => a.timestamp ≤ b.timestamp)
    (hlong : longOnlyOk 0 (txs.filter fun t => decide (t.timestamp ≤ T)) = true) :
    (calculate_metrics (txs.filter fun t => decide (t.timestamp ≤ T))
        cp r now).net_quantity = pyRound (snapReplay txs T).qty 8 ∧
    ((snapReplay txs T).qty ≠ 0 →
      (calculate_metrics (txs.filter fun t => decide (t.timestamp ≤ T))
          cp r now).avg_price = pyRound (snapReplay txs T).cost_basis 4) := by
  have hsf : sortTx (txs.filter fun t => decide (t.timestamp ≤ T)) =
      txs.filter fun t => decide (t.timestamp ≤ T) := by
    apply sortByTime_eq_self
    exact hsorted.filter _
  have hsnap : snapReplay txs T =
      (txs.filter fun t => decide (t.timestamp ≤ T)).foldl snapStepNF
        ⟨0, 0, 0, false⟩ :=
    foldl_snapStep_filter T txs ⟨0, 0, 0, false⟩
  obtain ⟨hq, hnn, hcbf⟩ := calc_snap_agree
    (txs.filter fun t => decide (t.timestamp ≤ T)) ⟨0, 0, 0, 0⟩ ⟨0, 0, 0, false⟩
    hlong rfl le_rfl (fun h => absurd h (lt_irrefl 0))
  constructor
  · show pyRound ((sortTx (txs.filter fun t => decide (t.timestamp ≤ T))).foldl
        applyTx ⟨0, 0, 0, 0⟩).net_qty 8 = pyRound (snapReplay txs T).qty 8
    rw [hsf, hsnap, hq]
  · intro hnz
    have hqnz : ((txs.filter fun t => decide (t.timestamp ≤ T)).foldl snapStepNF
        ⟨0, 0, 0, false⟩).qty ≠ 0 := by
      rw [← hsnap]
      exact hnz
    have hpos : 0 < ((txs.filter fun t => decide (t.timestamp ≤ T)).foldl applyTx
        ⟨0, 0, 0, 0⟩).net_qty := by
      rcases lt_or_eq_of_le hnn with h | h
      · exact h
      · exact absurd (hq ▸ h.symm) hqnz
    have hcb := hcbf hpos
    show pyRound ((sortTx (txs.filter fun t => decide (t.timestamp ≤ T))).foldl
        applyTx ⟨0, 0, 0, 0⟩).avg_price 4 = pyRound (snapReplay txs T).cost_basis 4
    rw [hsf, hsnap, hcb]

/-- Claim C1 counterexample: for a single short-opening fill (sell 10 @
100), `calculate_metrics` reports average price 100 while the snapshot
replay's cost basis stays 0 (its cost-basis update only fires for positive
quantities), so the snapshot's (net quantity, average price) does not equal
the §4.1 result — the claimed equivalence fails for short positions. -/
theorem c1_counterexample :
    ¬ ((calculate_metrics (([⟨"T1", 0, -10, 100, 0, none⟩] :
          List TradeTransaction).filter fun t => decide (t.timestamp ≤ 5))
          100 0 0).net_quantity =
        (snapReplay [⟨"T1", 0, -10, 100, 0, none⟩] 5).qty ∧
       (calculate_metrics (([⟨"T1", 0, -10, 100, 0, none⟩] :
          List TradeTransaction).filter fun t => decide (t.timestamp ≤ 5))
          100 0 0).avg_price =
        (snapReplay [⟨"T1", 0, -10, 100, 0, none⟩] 5).cost_basis) := by
  rintro ⟨-, h⟩
  have h1 : (calculate_metrics (([⟨"T1", 0, -10, 100, 0, none⟩] :
      List TradeTransaction).filter fun t => decide (t.timestamp ≤ 5))
      100 0 0).avg_price = 100 := by
    norm_num [calculate_metrics, sortTx, sortByTime, insertByTime, applyTx,
      List.filter, pyRound, bankersRound, ratFloor_eq_floor]
  have h2 : (snapReplay [⟨"T1", 0, -10, 100, 0, none⟩] 5).cost_basis = 0 := by
    norm_num [snapReplay, snapStep, snapStepNF]
  rw [h1, h2] at h
  norm_num at h

/-- Claim C1 witness: a sorted long-only single-buy history satisfies the
amended equivalence. -/
theorem c1_witness :
    ([⟨"A", 0, 10, 100, 0, none⟩] : List TradeTransaction).Pairwise
      (fun a b => a.timestamp ≤ b.timestamp) ∧
    longOnlyOk 0 (([⟨"A", 0, 10, 100, 0, none⟩] :
      List TradeTransaction).filter fun t => decide (t.timestamp ≤ 5)) = true ∧
    ((calculate_metrics (([⟨"A", 0, 10, 100, 0, none⟩] :
        List TradeTransaction).filter fun t => decide (t.timestamp ≤ 5))
        100 0 0).net_quantity =
      pyRound (snapReplay [⟨"A", 0, 10, 100, 0, none⟩] 5).qty 8 ∧
     ((snapReplay [⟨"A", 0, 10, 100, 0, none⟩] 5).qty ≠ 0 →
      (calculate_metrics (([⟨"A", 0, 10, 100, 0, none⟩] :
          List TradeTransaction).filter fun t => decide (t.timestamp ≤ 5))
          100 0 0).avg_price =
        pyRound (snapReplay [⟨"A", 0, 10, 100, 0, none⟩] 5).cost_basis 4)) := by
  have hp : ([⟨"A", 0, 10, 100, 0, none⟩] : List TradeTransaction).Pairwise
      (fun a b => a.timestamp ≤ b.timestamp) := by simp
  have hl : longOnlyOk 0 (([⟨"A", 0, 10, 100, 0, none⟩] :
      List TradeTransaction).filter fun t => decide (t.timestamp ≤ 5)) = true := by
    norm_num [longOnlyOk, List.filter, Bool.and_eq_true, decide_eq_true_eq]
  exact ⟨hp, hl, c1_snapshot_vs_calculator [⟨"A", 0, 10, 100, 0, none⟩] 5 100 0 0 hp hl⟩

end Stocklog
